import Mathlib

/-!
Shallow embedding of the pyshgp reproduction engine:
`src/pyshgp/gp/operators.py` (genetic operators and the genetics scheduler)
and `src/pyshgp/push/atoms.py` (the program-tree model).

Python values are modelled as follows: Python `int` is `Int` (arbitrary
precision, no overflow), Python `float` is modelled exactly as `Rat`
(the spec treats rates and probabilities as real numbers), Python lists
are Lean `List`s.  Randomness (`random.random()`, `random.choice`,
gaussian draws, the external selection collaborator and the external
random-instruction sampler) is modelled as explicit input streams
(`RandSrc`) together with a counter record (`RCtr`) threaded through
every operator, so each operator is a pure function of its inputs.
Loops of the source that are not structurally terminating (the
alternation loop can jump backwards forever under adversarial random
draws; the job-carving loop does not terminate when the per-job share
is zero) take a fuel argument and return `none` on fuel exhaustion.
Python exceptions are modelled with `Except`.
-/

namespace PyshGP

/-- A dynamically typed Python value, as stored in the payload slot of
a plush gene.  `obj` stands for any value whose type is none of
float/int/str/bool/None (e.g. an instruction object); distinct ids
stand for distinct objects. -/
inductive PyVal where
  | float (q : Rat)
  | int (z : Int)
  | str (s : String)
  | bool (b : Bool)
  | none
  | obj (id : Nat)
  deriving DecidableEq, Repr

/-- Modelled from the spec: the Gene record of the plush module
(`pyshgp.push.plush`, not under src/).  `operators.py` treats a gene
as the 4-tuple `(instruction, is_literal, closes, is_silent)` (it
indexes `token[2]` and `token[3]` in `constant_mutator`), built by
`make_plush_gene` and read by the `plush_gene_get_*` accessors. -/
structure PlushGene where
  instruction : PyVal
  is_literal : Bool
  closes : Int
  is_silent : Bool
  deriving DecidableEq, Repr

/-- Modelled from the spec: constructor `make_plush_gene` of the plush
module (not under src/). -/
def make_plush_gene (instruction : PyVal) (lit : Bool) (closes : Int) (silent : Bool) : PlushGene :=
  PlushGene.mk instruction lit closes silent

/-- Modelled from the spec: accessor of the plush module (not under src/). -/
def plush_gene_get_instruction (g : PlushGene) : PyVal := g.instruction

/-- Modelled from the spec: accessor of the plush module (not under src/). -/
def plush_gene_is_literal (g : PlushGene) : Bool := g.is_literal

/-- Modelled from the spec: accessor of the plush module (not under src/). -/
def plush_gene_get_closes (g : PlushGene) : Int := g.closes

/-- Modelled from the spec: accessor of the plush module (not under src/). -/
def plush_gene_is_silent (g : PlushGene) : Bool := g.is_silent

/-- A default gene, used only as the (never reached) fallback of
checked list indexing. -/
def default_gene : PlushGene := make_plush_gene PyVal.none false 0 false

/-- Modelled from the spec: an Individual (`pyshgp.gp.individual`, not
under src/) owns a genome; the operators only ever read it back with
`get_genome`. -/
structure Individual where
  genome : List PlushGene
  deriving DecidableEq, Repr

/-- Modelled from the spec: accessor `Individual.get_genome`. -/
def Individual.get_genome (i : Individual) : List PlushGene := i.genome

/-- The evolutionary-parameter record (`evo_params` dict) with the keys
read by `operators.py`. -/
structure EvoParams where
  max_points : Nat
  alternation_rate : Rat
  alignment_deviation : Rat
  uniform_mutation_rate : Rat
  uniform_mutation_constant_tweak_rate : Rat
  uniform_mutation_float_gaussian_standard_deviation : Rat
  uniform_mutation_string_char_change_rate : Rat
  uniform_close_mutation_rate : Rat
  close_increment_rate : Rat
  epigenetic_markers : List String
  genetic_operator_probabilities : List (String × Rat)
  population_size : Nat
  parallel_genetics : Bool
  max_workers : Option Int
  ncpus : Nat

/-- The sources of randomness and of external-collaborator results,
as infinite streams: `rand n` is the n-th value of `random.random()`
(a real in [0,1)), `pick n` drives the n-th `random.choice` call,
`noise n` is the n-th `gaussian_noise_factor()` draw, `instr n` the
n-th result of the external random-instruction sampler, and `sel n`
the n-th individual returned by the external selection collaborator. -/
structure RandSrc where
  rand : Nat → Rat
  pick : Nat → Nat
  noise : Nat → Rat
  instr : Nat → PlushGene
  sel : Nat → Individual

/-- Counters recording how many values of each stream have been consumed. -/
structure RCtr where
  rand : Nat
  pick : Nat
  noise : Nat
  instr : Nat
  sel : Nat
  deriving DecidableEq, Repr

def bumpRand (c : RCtr) : RCtr := RCtr.mk (c.rand + 1) c.pick c.noise c.instr c.sel
def bumpPick (c : RCtr) : RCtr := RCtr.mk c.rand (c.pick + 1) c.noise c.instr c.sel
def bumpNoise (c : RCtr) : RCtr := RCtr.mk c.rand c.pick (c.noise + 1) c.instr c.sel
def bumpInstr (c : RCtr) : RCtr := RCtr.mk c.rand c.pick c.noise (c.instr + 1) c.sel
def bumpSel (c : RCtr) : RCtr := RCtr.mk c.rand c.pick c.noise c.instr (c.sel + 1)

/-- Python 3 `round`: round half to even, returning an int. -/
def pyRound (q : Rat) : Int :=
  let f : Int := Int.floor q
  let frac : Rat := q - f
  if frac < 1/2 then f
  else if 1/2 < frac then f + 1
  else if f % 2 = 0 then f else f + 1

/-- Python `random.choice(l)`, modelled as indexing `l` by the driving
stream value modulo the length. -/
def pyChoice {α : Type} (l : List α) (k : Nat) (d : α) : α :=
  l.getD (k % l.length) d

/-!  ### alternation (operators.py lines 28-68)

The while loop of `alternation`: state is the read index `i`, the flag
`use_parent_1`, the counters and the accumulated `resulting_genome`.
`loop_times` is recomputed from the current flag both before the loop
and at the end of each body, which is the same as computing it from
the current flag at each loop entry.  The loop is not structurally
terminating (a jump can move `i` backwards), so it takes fuel and
returns `none` when the fuel runs out. -/
def alternationLoop (p : EvoParams) (parent_1 parent_2 : List PlushGene) (src : RandSrc) :
    Nat → Nat → Bool → RCtr → List PlushGene → Option (List PlushGene × RCtr)
  | 0, _, _, _, _ => none
  | fuel + 1, i, use_parent_1, c, acc =>
    let loop_times := if use_parent_1 then parent_1.length else parent_2.length
    if i < loop_times ∧ acc.length < p.max_points then
      if src.rand c.rand < p.alternation_rate then
        -- switch which parent we are pulling genes from;
        -- i += round(alignment_deviation * gaussian_noise_factor()); i = int(max(0, i))
        let delta := pyRound (p.alignment_deviation * src.noise c.noise)
        alternationLoop p parent_1 parent_2 src fuel ((Int.ofNat i + delta).toNat)
          (!use_parent_1) (bumpNoise (bumpRand c)) acc
      else
        -- pull gene from the active parent
        let gene := if use_parent_1 then parent_1.getD i default_gene
                    else parent_2.getD i default_gene
        alternationLoop p parent_1 parent_2 src fuel (i + 1) use_parent_1
          (bumpRand c) (acc ++ [gene])
    else some (acc, c)

/-- Source `alternation(parent_1, parent_2, evo_params)`: pick the starting
parent with `random.choice([True, False])`, then run the loop from
index 0 with an empty resulting genome. -/
def alternation (parent_1 parent_2 : List PlushGene) (p : EvoParams)
    (src : RandSrc) (c : RCtr) (fuel : Nat) : Option (List PlushGene × RCtr) :=
  let use_parent_1 := pyChoice [true, false] (src.pick c.pick) false
  alternationLoop p parent_1 parent_2 src fuel 0 use_parent_1 (bumpPick c) []

/-!  ### Uniform mutation (operators.py lines 77-132) -/

/-- The candidate replacement characters of `string_tweak`: tab and
newline followed by the printable ASCII characters 32 to 126. -/
def tweakChars : List Char :=
  Char.ofNat 9 :: Char.ofNat 10 :: (List.range 95).map (fun k => Char.ofNat (32 + k))

/-- The per-character loop of `string_tweak`: each character is replaced
with probability `uniform_mutation_string_char_change_rate` by a
`random.choice` over `tweakChars`, and kept otherwise. -/
def string_tweak_chars (p : EvoParams) (src : RandSrc) :
    List Char → RCtr → List Char × RCtr
  | [], c => ([], c)
  | ch :: rest, c =>
    if src.rand c.rand < p.uniform_mutation_string_char_change_rate then
      let ch2 := pyChoice tweakChars (src.pick (bumpRand c).pick) ch
      let (restOut, c2) := string_tweak_chars p src rest (bumpPick (bumpRand c))
      (ch2 :: restOut, c2)
    else
      let (restOut, c2) := string_tweak_chars p src rest (bumpRand c)
      (ch :: restOut, c2)

/-- Source `string_tweak(s, evo_params)`. -/
def string_tweak (s : String) (p : EvoParams) (src : RandSrc) (c : RCtr) : String × RCtr :=
  let (chars, c2) := string_tweak_chars p src s.data c
  (String.mk chars, c2)

/-- Source `instruction_mutator(evo_params)`.  Modelled from the spec: it
returns `r.random_plush_instruction(evo_params)`, the external
random-instruction sampler (`pyshgp.push.random`, not under src/),
modelled as the next gene of the `instr` stream. -/
def instruction_mutator (p : EvoParams) (src : RandSrc) (c : RCtr) : PlushGene × RCtr :=
  let _ := p
  (src.instr c.instr, bumpInstr c)

/-- Modelled from the spec: `u.perturb_with_gaussian_noise(sd, x)`
(`pyshgp.utils`, not under src/) perturbs `x` by additive Gaussian
noise with standard deviation `sd`; the Gaussian draw is the supplied
stream value. -/
def perturb_with_gaussian_noise (sd : Rat) (x : Rat) (noise : Rat) : Rat :=
  x + sd * noise

/-- Source `constant_mutator(token, evo_params)`: a literal gene has its
payload tweaked by exact type dispatch (`type(const) == float`, `int`,
`str`, `bool` in that order); any other payload type leaves
`instruction = None`.  The result gene keeps `token[2]` (closes) and
`token[3]` (is_silent) and is marked literal.  A non-literal gene is
replaced by `instruction_mutator`. -/
def constant_mutator (token : PlushGene) (p : EvoParams) (src : RandSrc) (c : RCtr) :
    PlushGene × RCtr :=
  if plush_gene_is_literal token then
    match plush_gene_get_instruction token with
    | PyVal.float q =>
      let v := perturb_with_gaussian_noise
        p.uniform_mutation_float_gaussian_standard_deviation q (src.noise c.noise)
      (make_plush_gene (PyVal.float v) true token.closes token.is_silent, bumpNoise c)
    | PyVal.int z =>
      let v := perturb_with_gaussian_noise
        p.uniform_mutation_float_gaussian_standard_deviation (z : Rat) (src.noise c.noise)
      (make_plush_gene (PyVal.int (pyRound v)) true token.closes token.is_silent, bumpNoise c)
    | PyVal.str s =>
      let (s2, c2) := string_tweak s p src c
      (make_plush_gene (PyVal.str s2) true token.closes token.is_silent, c2)
    | PyVal.bool _ =>
      let b := pyChoice [true, false] (src.pick c.pick) false
      (make_plush_gene (PyVal.bool b) true token.closes token.is_silent, bumpPick c)
    | _ =>
      (make_plush_gene PyVal.none true token.closes token.is_silent, c)
  else
    instruction_mutator p src c

/-- Source `token_mutator(token, evo_params)`. -/
def token_mutator (token : PlushGene) (p : EvoParams) (src : RandSrc) (c : RCtr) :
    PlushGene × RCtr :=
  if src.rand c.rand < p.uniform_mutation_rate then
    if src.rand (bumpRand c).rand < p.uniform_mutation_constant_tweak_rate then
      constant_mutator token p src (bumpRand (bumpRand c))
    else
      instruction_mutator p src (bumpRand (bumpRand c))
  else (token, bumpRand c)

/-- Source `uniform_mutation(genome, evo_params)`: map `token_mutator` over the
genome (threading the randomness counters left to right). -/
def uniform_mutation (genome : List PlushGene) (p : EvoParams) (src : RandSrc) (c : RCtr) :
    List PlushGene × RCtr :=
  match genome with
  | [] => ([], c)
  | g :: rest =>
    let (g2, c2) := token_mutator g p src c
    let (rest2, c3) := uniform_mutation rest p src c2
    (g2 :: rest2, c3)

/-!  ### Uniform close mutation (operators.py lines 136-172) -/

/-- Source `close_mutator(gene, evo_params)`. -/
def close_mutator (gene : PlushGene) (p : EvoParams) (src : RandSrc) (c : RCtr) :
    PlushGene × RCtr :=
  let closes := plush_gene_get_closes gene
  if src.rand c.rand < p.uniform_close_mutation_rate then
    let new_closes :=
      if src.rand (bumpRand c).rand < p.close_increment_rate then closes + 1
      else if closes = 0 then 0
      else closes - 1
    (make_plush_gene (plush_gene_get_instruction gene) (plush_gene_is_literal gene)
      new_closes (plush_gene_is_silent gene), bumpRand (bumpRand c))
  else
    (make_plush_gene (plush_gene_get_instruction gene) (plush_gene_is_literal gene)
      closes (plush_gene_is_silent gene), bumpRand c)

/-- The mapping loop of `uniform_close_mutation`. -/
def close_mutation_map (p : EvoParams) (src : RandSrc) :
    List PlushGene → RCtr → List PlushGene × RCtr
  | [], c => ([], c)
  | g :: rest, c =>
    let (g2, c2) := close_mutator g p src c
    let (rest2, c3) := close_mutation_map p src rest c2
    (g2 :: rest2, c3)

/-- Source `uniform_close_mutation(genome, evo_params)`: a no-op unless the
`_close` epigenetic marker is configured. -/
def uniform_close_mutation (genome : List PlushGene) (p : EvoParams) (src : RandSrc)
    (c : RCtr) : List PlushGene × RCtr :=
  if ("_close") ∈ p.epigenetic_markers then close_mutation_map p src genome c
  else (genome, c)

/-!  ### Master genetics functions (operators.py lines 179-274) -/

/-- Modelled from the spec: the `pyshgp.exceptions` module (not under
src/) defines the named error `UnknownGeneticOperator`, raised with
the offending operator string. -/
inductive PushError where
  | unknownGeneticOperator (op : String)
  deriving DecidableEq, Repr

/-- The operator names recognised by `produce_child`. -/
def validOps : List String := ["alternation", "uniform_mutation", "uniform_close_mutation"]

/-- Modelled from the spec: `sel.selection(population, params)[0]`, the
external selection collaborator (not under src/), modelled as the next
individual of the `sel` stream. -/
def selection (population : List Individual) (src : RandSrc) (c : RCtr) :
    Individual × RCtr :=
  let _ := population
  (src.sel c.sel, bumpSel c)

/-- One iteration of the operator loop of `produce_child`: apply one
named operator to the current child.  `alternation` re-selects a
second parent and crosses the genomes; the two mutation operators
transform the current genome; any other name raises
`UnknownGeneticOperator(op)`.  `none` means the alternation loop ran
out of fuel. -/
def apply_op (population : List Individual) (p : EvoParams) (src : RandSrc) (fuel : Nat)
    (child : Individual) (c : RCtr) (op : String) :
    Option (Except PushError (Individual × RCtr)) :=
  if op = "alternation" then
    let (other_parent, c1) := selection population src c
    match alternation child.get_genome other_parent.get_genome p src c1 fuel with
    | none => none
    | some (g, c2) => some (Except.ok (Individual.mk g, c2))
  else if op = "uniform_mutation" then
    let (g, c1) := uniform_mutation child.get_genome p src c
    some (Except.ok (Individual.mk g, c1))
  else if op = "uniform_close_mutation" then
    let (g, c1) := uniform_close_mutation child.get_genome p src c
    some (Except.ok (Individual.mk g, c1))
  else
    some (Except.error (PushError.unknownGeneticOperator op))

/-- Whether `l1` starts with `l2` (an exact prefix match on characters). -/
def listStartsWith : List Char → List Char → Bool
  | _, [] => true
  | [], _ :: _ => false
  | c :: cs, d :: ds => c = d && listStartsWith cs ds

/-- The scanning loop of Python `str.split(sep)` for a non-empty
separator `d`: at each character, either the separator matches here (emit
the accumulated piece and skip the separator) or the character joins the
accumulated piece.  Each step consumes at least one character, so
`fuel = length of the string` always suffices; the fuel-0 fallback is
unreachable then. -/
def pySplitAux (d : List Char) : Nat → List Char → List Char → List (List Char)
  | _, [], acc => [acc.reverse]
  | 0, rest, acc => [acc.reverse ++ rest]
  | fuel + 1, c :: cs, acc =>
    if listStartsWith (c :: cs) d then
      acc.reverse :: pySplitAux d fuel (List.drop (d.length - 1) cs) []
    else
      pySplitAux d fuel cs (c :: acc)

/-- Python `s.split(d)` for a non-empty separator: splits on every
non-overlapping occurrence of `d`, keeping empty pieces (splitting an
empty string yields one empty piece).  Python raises ValueError on an empty
separator; that case never arises here and is modelled as `[s]`. -/
def pySplit (s : String) (d : String) : List String :=
  if d.data = [] then [s]
  else (pySplitAux d.data s.data.length s.data []).map (fun cs => String.mk cs)

/-- The `for op in ops` loop of `produce_child`: the first raised error
aborts the loop and propagates. -/
def produce_child_ops (population : List Individual) (p : EvoParams) (src : RandSrc)
    (fuel : Nat) : List String → Individual → RCtr →
    Option (Except PushError (Individual × RCtr))
  | [], child, c => some (Except.ok (child, c))
  | op :: rest, child, c =>
    match apply_op population p src fuel child c op with
    | none => none
    | some (Except.error e) => some (Except.error e)
    | some (Except.ok (child2, c2)) => produce_child_ops population p src fuel rest child2 c2

/-- Source `produce_child(population, genetic_operators, evolutionary_params)`:
select an initial parent, split the operator string on the
space-ampersand-space delimiter, and apply each named operator in
sequence. -/
def produce_child (population : List Individual) (genetic_operators : String)
    (p : EvoParams) (src : RandSrc) (c : RCtr) (fuel : Nat) :
    Option (Except PushError (Individual × RCtr)) :=
  let (child, c1) := selection population src c
  produce_child_ops population p src fuel (pySplit genetic_operators (" & ")) child c1

/-- Source `produce_n_children(n, population, genetic_operators, params)`. -/
def produce_n_children (n : Nat) (population : List Individual) (genetic_operators : String)
    (p : EvoParams) (src : RandSrc) (c : RCtr) (fuel : Nat) :
    Option (Except PushError (List Individual × RCtr)) :=
  match n with
  | 0 => some (Except.ok ([], c))
  | k + 1 =>
    match produce_child population genetic_operators p src c fuel with
    | none => none
    | some (Except.error e) => some (Except.error e)
    | some (Except.ok (child, c2)) =>
      match produce_n_children k population genetic_operators p src c2 fuel with
      | none => none
      | some (Except.error e) => some (Except.error e)
      | some (Except.ok (rest, c3)) => some (Except.ok (child :: rest, c3))

/-- Line 235 of operators.py: the per-key offspring quotas
`int(round(probability * population_size))`, in the insertion order of
the probability dict. -/
def num_offspring_each_gen_op (p : EvoParams) : List (String × Int) :=
  p.genetic_operator_probabilities.map
    (fun kv => (kv.1, pyRound (kv.2 * (p.population_size : Rat))))

/-- The inner `while i > 0` loop of the parallel branch of `genetics`
(lines 248-256): repeatedly carve `min(i, aprox_num_individuals_per_job)`
children off the remaining quota `i`.  When the share is zero and the
quota positive, the source loops forever; the fuel returns `none` there. -/
def carve_jobs : Nat → Int → Int → Option (List Int)
  | fuel, i, share =>
    if 0 < i then
      match fuel with
      | 0 => none
      | f + 1 =>
        if i < share then (carve_jobs f (i - i) share).map (fun l => i :: l)
        else (carve_jobs f (i - share) share).map (fun l => share :: l)
    else some []

/-- The `for op in num_offspring_each_gen_op.keys()` partition loop of
the parallel branch (lines 246-256), producing the `jobs_n`/`jobs_ops`
pairs in order. -/
def partition_jobs : List (String × Int) → Int → Nat → Option (List (Int × String))
  | [], _, _ => some []
  | (op, q) :: rest, share, fuel =>
    match carve_jobs fuel q share, partition_jobs rest share fuel with
    | some l, some r => some (l.map (fun n => (n, op)) ++ r)
    | _, _ => none

/-- The job-size sequence the spec describes for one operator key: the
scheduler repeatedly carves off min(i, per_job_share) children,
decrementing i, until the quota of that operator is exhausted.  Stated
from the words of the spec, to be compared with `carve_jobs`; the fuel
mirrors the one of `carve_jobs`. -/
def specCarve : Nat → Int → Int → List Int
  | 0, _, _ => []
  | f + 1, q, share =>
    if 0 < q then min q share :: specCarve f (q - min q share) share else []

/-- The test `max_workers == None or max_workers > 1`. -/
def workersOver1 : Option Int → Bool
  | none => true
  | some w => 1 < w

/-- The `pool.map(produce_n_children, jobs_n, ..., jobs_ops, ...)` call
followed by concatenation of the job results.  Modelled from the spec:
the worker pool (an external collaborator) runs each job; here the
jobs are run in list order against the single threaded randomness
stream, concatenating results in job order. -/
def run_jobs (population : List Individual) (p : EvoParams) (src : RandSrc) (fuel : Nat) :
    List (Int × String) → RCtr → Option (Except PushError (List Individual × RCtr))
  | [], c => some (Except.ok ([], c))
  | (n, op) :: rest, c =>
    match produce_n_children n.toNat population op p src c fuel with
    | none => none
    | some (Except.error e) => some (Except.error e)
    | some (Except.ok (l, c2)) =>
      match run_jobs population p src fuel rest c2 with
      | none => none
      | some (Except.error e) => some (Except.error e)
      | some (Except.ok (l2, c3)) => some (Except.ok (l ++ l2, c3))

/-- The sequential branch of `genetics` (lines 267-272): for each
operator key, produce `range(quota)` children one at a time. -/
def genetics_seq (population : List Individual) (p : EvoParams) (src : RandSrc)
    (fuel : Nat) : List (String × Int) → RCtr →
    Option (Except PushError (List Individual × RCtr))
  | [], c => some (Except.ok ([], c))
  | (op, q) :: rest, c =>
    match produce_n_children q.toNat population op p src c fuel with
    | none => none
    | some (Except.error e) => some (Except.error e)
    | some (Except.ok (l, c2)) =>
      match genetics_seq population p src fuel rest c2 with
      | none => none
      | some (Except.error e) => some (Except.error e)
      | some (Except.ok (l2, c3)) => some (Except.ok (l ++ l2, c3))

/-- Source `genetics(population, evolutionary_params)` (lines 217-274).
`aprox_num_individuals_per_job = int(population_size / (ncpus - 1))`
is modelled with Nat division (both operands are non-negative; for
`ncpus = 1` the source raises ZeroDivisionError while this model
yields share 0, a case excluded by every statement below). -/
def genetics (population : List Individual) (p : EvoParams) (src : RandSrc) (c : RCtr)
    (fuel : Nat) : Option (Except PushError (List Individual)) :=
  let quotas := num_offspring_each_gen_op p
  if p.parallel_genetics && workersOver1 p.max_workers then
    let aprox : Int := (p.population_size / (p.ncpus - 1) : Nat)
    match partition_jobs quotas aprox fuel with
    | none => none
    | some jobs =>
      match run_jobs population p src fuel jobs c with
      | none => none
      | some (Except.error e) => some (Except.error e)
      | some (Except.ok (l, _)) => some (Except.ok l)
  else
    match genetics_seq population p src fuel quotas c with
    | none => none
    | some (Except.error e) => some (Except.error e)
    | some (Except.ok (l, _)) => some (Except.ok l)

/-!  ### Program-tree model (push/atoms.py)

An `Atom` is a Closer, a Literal (value plus PushType name), an
InstructionMeta (name plus code-block arity), an Input, or a CodeBlock
holding a list of Atoms.  A CodeBlock receiver is represented by its
element list `List Atom`. -/
inductive Atom where
  | closer
  | literal (value : PyVal) (push_type : String)
  | instructionMeta (name : String) (code_blocks : Int)
  | input (input_index : Int)
  | block (els : List Atom)

/-- Source `CodeBlock.size` (atoms.py lines 71-73):
`sum([el.size(depth+1) + 1 if isinstance(el, CodeBlock) else 1 for el in self])`
(the `depth` argument is never read). -/
def blockSize : List Atom → Nat
  | [] => 0
  | Atom.block els :: rest => (blockSize els + 1) + blockSize rest
  | _ :: rest => 1 + blockSize rest

mutual
/-- Source `CodeBlock.code_at_point(ndx)` (atoms.py lines 87-100) on the
element list of the receiver: index 0 is the receiver itself, otherwise
scan the elements depth first. -/
def code_at_point (els : List Atom) (ndx : Int) : Option Atom :=
  if ndx = 0 then some (Atom.block els) else codePointScan els ndx
termination_by sizeOf els * 2 + 1
decreasing_by simp_wf

/-- The `for el in self` loop of `code_at_point`: `i` is decremented
for `el`; on hit return `el`; a CodeBlock element is searched
recursively and, when the search misses, `i` is further decremented by
`el.size()`. -/
def codePointScan : List Atom → Int → Option Atom
  | [], _ => none
  | el :: rest, i =>
    if i - 1 = 0 then some el
    else
      match el with
      | Atom.block els =>
        match code_at_point els (i - 1) with
        | some a => some a
        | none => codePointScan rest (i - 1 - (blockSize els : Int))
      | _ => codePointScan rest (i - 1)
termination_by l _ => sizeOf l * 2
decreasing_by all_goals simp_wf <;> omega
end

/-- One pass of the iterator pipeline inside `CodeBlock.depth`
(atoms.py lines 75-85): `chain([next(i)], i)` puts the consumed head
back, and the `chain.from_iterable` over `(s for s in i if
isinstance(s, Sequence) and not isinstance(s, str))` concatenates the
elements of the Sequence members (the CodeBlocks) and drops every
non-Sequence member. -/
def flattenOnce (l : List Atom) : List Atom :=
  (l.map (fun a => match a with | Atom.block els => els | _ => [])).flatten

/-- The `for level in count()` loop of `depth`: at pass `level` the
`next(i)` call raises StopIteration precisely when the current
(level-times flattened) sequence is empty, returning `level`.  Each
pass of `flattenOnce` on a non-empty list strictly decreases
`blockSize` by at least the list length, so `blockSize l` passes
always suffice; the fuel-0 fallback mirrors the unreachable trailing
`return 0` of the source. -/
def depthPasses : Nat → List Atom → Nat
  | _, [] => 0
  | 0, _ => 0
  | fuel + 1, l => 1 + depthPasses fuel (flattenOnce l)

/-- Source `CodeBlock.depth()` on the element list of the receiver. -/
def depth (els : List Atom) : Nat := depthPasses (blockSize els) els

/-!  ### Concrete fixtures used by witnesses and counterexamples -/

/-- True exactly for the payload types `constant_mutator` dispatches
on (`type(const) ==` float / int / str / bool). -/
def isTweakableConst : PyVal → Bool
  | PyVal.float _ => true
  | PyVal.int _ => true
  | PyVal.str _ => true
  | PyVal.bool _ => true
  | _ => false

/-- A concrete randomness source: every `random.random()` is 0 (a legal
value, since draws lie in [0,1)), every choice index 0, every gaussian
draw 0, the instruction sampler always yields `default_gene`, selection
always yields the empty-genome individual. -/
def constSrc : RandSrc :=
  RandSrc.mk (fun _ => 0) (fun _ => 0) (fun _ => 0) (fun _ => default_gene)
    (fun _ => Individual.mk [])

/-- All counters start at zero. -/
def c0 : RCtr := RCtr.mk 0 0 0 0 0

/- EvoParams field order: max_points, alternation_rate,
alignment_deviation, uniform_mutation_rate,
uniform_mutation_constant_tweak_rate,
uniform_mutation_float_gaussian_standard_deviation,
uniform_mutation_string_char_change_rate, uniform_close_mutation_rate,
close_increment_rate, epigenetic_markers,
genetic_operator_probabilities, population_size, parallel_genetics,
max_workers, ncpus. -/

/-- Generic parameters (max_points 5, all rates 0). -/
def pW : EvoParams := ⟨5, 0, 0, 0, 0, 0, 0, 0, 0, [], [], 0, false, none, 2⟩

/-- Parameters with `max_points = 0`, `alternation_rate = 0`,
`alignment_deviation = 2`. -/
def pCex5 : EvoParams := ⟨0, 0, 2, 0, 0, 0, 0, 0, 0, [], [], 0, false, none, 2⟩

/-- Parameters with `max_points = 3`, `alternation_rate = 0`,
`alignment_deviation = 5`. -/
def pMax : EvoParams := ⟨3, 0, 5, 0, 0, 0, 0, 0, 0, [], [], 0, false, none, 2⟩

/-- Parameters with `uniform_close_mutation_rate = 1` and
`close_increment_rate = 0` and the `_close` marker active: every gene
is selected for change and every change is a decrement. -/
def pClose : EvoParams := ⟨5, 0, 0, 0, 0, 0, 0, 1, 0, ["_close"], [], 0, false, none, 2⟩

/-- Sequential-mode parameters with population_size 100 and operator
probabilities alternation 0.7, uniform_mutation 0.3. -/
def p100 : EvoParams :=
  ⟨100, 0, 0, 0, 0, 0, 0, 0, 0, [],
    [("alternation", 7/10), ("uniform_mutation", 3/10)], 100, false, none, 2⟩

/-- A literal gene with `close_count = 0`. -/
def gene0 : PlushGene := make_plush_gene (PyVal.int 3) true 0 false

/-- A literal gene whose payload is of an unsupported type. -/
def gObj : PlushGene := make_plush_gene (PyVal.obj 7) true 3 true

/-- The CodeBlock `[Literal(5)]`. -/
def exBlock : List Atom := [Atom.literal (PyVal.int 5) ("int")]

/-- The CodeBlock of the concrete scenario: a Literal 5 followed by an
InstructionReference named add. -/
def exTree : List Atom :=
  [Atom.literal (PyVal.int 5) ("int"), Atom.instructionMeta ("add") 0]

/-!  ## Theorems -/

theorem alternationLoop_length_le (p : EvoParams) (p1 p2 : List PlushGene) (src : RandSrc) :
    ∀ (fuel i : Nat) (u : Bool) (c : RCtr) (acc g : List PlushGene) (c2 : RCtr),
      acc.length ≤ p.max_points →
      alternationLoop p p1 p2 src fuel i u c acc = some (g, c2) →
      g.length ≤ p.max_points := by
  intro fuel
  induction fuel with
  | zero =>
    intro i u c acc g c2 _ h
    simp [alternationLoop] at h
  | succ f ih =>
    intro i u c acc g c2 hacc h
    simp only [alternationLoop] at h
    by_cases hg1 : i < (if u = true then p1.length else p2.length) ∧ acc.length < p.max_points
    · rw [if_pos hg1] at h
      by_cases hr : src.rand c.rand < p.alternation_rate
      · rw [if_pos hr] at h
        exact ih _ _ _ _ _ _ hacc h
      · rw [if_neg hr] at h
        refine ih _ _ _ _ _ _ ?_ h
        have := hg1.2
        simp only [List.length_append, List.length_cons, List.length_nil]
        omega
    · rw [if_neg hg1] at h
      simp only [Option.some.injEq, Prod.mk.injEq] at h
      obtain ⟨rfl, rfl⟩ := h
      exact hacc

/-- Claim C1: for all parents and parameters, whenever `alternation`
terminates its resulting genome has length at most `max_points`. -/
theorem alternation_max_points (p1 p2 : List PlushGene) (p : EvoParams) (src : RandSrc)
    (c : RCtr) (fuel : Nat) (g : List PlushGene) (c2 : RCtr)
    (h : alternation p1 p2 p src c fuel = some (g, c2)) :
    g.length ≤ p.max_points :=
  alternationLoop_length_le p p1 p2 src fuel 0 _ _ [] g c2 (by simp) h

theorem alternation_max_points_witness :
    ([default_gene] : List PlushGene).length ≤ pW.max_points :=
  alternation_max_points [default_gene] [] pW constSrc c0 3 [default_gene]
    (bumpRand (bumpPick c0)) rfl

theorem alternationLoop_rate_zero (p : EvoParams) (p1 p2 : List PlushGene) (src : RandSrc)
    (hrate : p.alternation_rate = 0) (hrand : ∀ n, 0 ≤ src.rand n)
    (hmax : p1.length ≤ p.max_points) :
    ∀ (fuel i : Nat) (c : RCtr), i ≤ p1.length → p1.length - i < fuel →
      ∃ c2, alternationLoop p p1 p2 src fuel i true c (p1.take i) = some (p1, c2) := by
  intro fuel
  induction fuel with
  | zero => intro i c hi hf; omega
  | succ f ih =>
    intro i c hi hf
    by_cases hlt : i < p1.length
    · have hnr : ¬ (src.rand c.rand < p.alternation_rate) := by
        rw [hrate]; exact not_lt.mpr (hrand c.rand)
      simp only [alternationLoop, if_true]
      rw [if_pos ?hguard, if_neg hnr]
      case hguard =>
        refine ⟨by simpa using hlt, ?_⟩
        simp only [List.length_take]
        omega
      have htake : p1.take i ++ [p1.getD i default_gene] = p1.take (i+1) := by
        rw [List.take_succ, List.getElem?_eq_getElem hlt]
        simp [List.getD_eq_getElem?_getD, List.getElem?_eq_getElem hlt]
      rw [htake]
      exact ih (i+1) (bumpRand c) (by omega) (by omega)
    · have hieq : i = p1.length := by omega
      subst hieq
      refine ⟨c, ?_⟩
      simp only [alternationLoop]
      rw [if_neg ?hng]
      case hng => simp
      rw [List.take_length]

/-- Claim C5 (amended): with `alternation_rate = 0` and any
alignment_deviation, when parent 1 is the initial choice and
`len(parent_1) ≤ max_points`, `alternation` returns parent 1
unchanged.  (The unamended claim fails when `max_points` is smaller
than parent 1: the hard cap truncates the copy.) -/
theorem alternation_rate_zero_parent1 (p1 p2 : List PlushGene) (p : EvoParams)
    (src : RandSrc) (c : RCtr) (fuel : Nat)
    (hrate : p.alternation_rate = 0) (hrand : ∀ n, 0 ≤ src.rand n)
    (hchoice : src.pick c.pick % 2 = 0) (hmax : p1.length ≤ p.max_points)
    (hfuel : p1.length < fuel) :
    ∃ c2, alternation p1 p2 p src c fuel = some (p1, c2) := by
  have hu : pyChoice [true, false] (src.pick c.pick) false = true := by
    simp [pyChoice, hchoice]
  unfold alternation
  rw [hu]
  have h := alternationLoop_rate_zero p p1 p2 src hrate hrand hmax fuel 0 (bumpPick c)
    (by omega) (by omega)
  simpa using h

theorem alternation_rate_zero_witness :
    ∃ c2, alternation [default_gene, default_gene] [] pMax constSrc c0 5
      = some ([default_gene, default_gene], c2) :=
  alternation_rate_zero_parent1 [default_gene, default_gene] [] pMax constSrc c0 5
    rfl (fun _ => le_refl (0 : Rat)) rfl (by decide) (by decide)

/-- Claim C5 counterexample: with `alternation_rate = 0`, parent 1 the
initial choice, and `max_points = 0`, the result is the empty genome,
not parent 1. -/
theorem alternation_rate_zero_cex :
    alternation [default_gene] [default_gene] pCex5 constSrc c0 5
        = some ([], bumpPick c0)
      ∧ ([] : List PlushGene) ≠ [default_gene] := by
  exact ⟨rfl, by simp⟩

/-- Claim C6: `uniform_mutation` preserves the genome length. -/
theorem uniform_mutation_length (genome : List PlushGene) (p : EvoParams) (src : RandSrc)
    (c : RCtr) : ((uniform_mutation genome p src c).1).length = genome.length := by
  induction genome generalizing c with
  | nil => simp [uniform_mutation]
  | cons g rest ih => simp [uniform_mutation, ih]

/-- Claim C7: `close_mutator` never produces a negative close count
from a gene whose close count is non-negative (decrementing zero
leaves zero). -/
theorem close_mutator_nonneg (gene : PlushGene) (p : EvoParams) (src : RandSrc) (c : RCtr)
    (h : 0 ≤ plush_gene_get_closes gene) :
    0 ≤ plush_gene_get_closes ((close_mutator gene p src c).1) := by
  unfold close_mutator plush_gene_get_closes make_plush_gene at *
  dsimp only
  split
  · dsimp only
    split
    · omega
    · split
      · omega
      · omega
  · exact h

theorem close_mutator_nonneg_witness :
    0 ≤ plush_gene_get_closes ((close_mutator gene0 pClose constSrc c0).1)
      ∧ plush_gene_get_closes ((close_mutator gene0 pClose constSrc c0).1) = 0 :=
  ⟨close_mutator_nonneg gene0 pClose constSrc c0 (by decide), by decide⟩

/-- Claim C10: a literal gene whose payload is of no supported
constant type is rewritten by `constant_mutator` to a literal gene
with payload `None`, keeping its close count and silent marker, and
consuming no randomness. -/
theorem constant_mutator_unsupported (g : PlushGene) (p : EvoParams) (src : RandSrc)
    (c : RCtr) (hlit : plush_gene_is_literal g = true)
    (htype : isTweakableConst (plush_gene_get_instruction g) = false) :
    constant_mutator g p src c
      = (make_plush_gene PyVal.none true g.closes g.is_silent, c) := by
  unfold constant_mutator
  rw [if_pos hlit]
  cases hg : plush_gene_get_instruction g
  case float q => rw [hg] at htype; simp [isTweakableConst] at htype
  case int z => rw [hg] at htype; simp [isTweakableConst] at htype
  case str s => rw [hg] at htype; simp [isTweakableConst] at htype
  case bool b => rw [hg] at htype; simp [isTweakableConst] at htype
  case none => rfl
  case obj n => rfl

theorem constant_mutator_unsupported_witness :
    constant_mutator gObj pW constSrc c0
      = (make_plush_gene PyVal.none true gObj.closes gObj.is_silent, c0) :=
  constant_mutator_unsupported gObj pW constSrc c0 (by decide) (by decide)

@[simp] theorem blockSize_nil : blockSize [] = 0 := by
  rw [blockSize.eq_def]

@[simp] theorem blockSize_cons_block (els rest : List Atom) :
    blockSize (Atom.block els :: rest) = blockSize els + 1 + blockSize rest := by
  rw [blockSize.eq_def]

@[simp] theorem blockSize_cons_closer (rest : List Atom) :
    blockSize (Atom.closer :: rest) = 1 + blockSize rest := by
  rw [blockSize.eq_def]

@[simp] theorem blockSize_cons_literal (v : PyVal) (pt : String) (rest : List Atom) :
    blockSize (Atom.literal v pt :: rest) = 1 + blockSize rest := by
  rw [blockSize.eq_def]

@[simp] theorem blockSize_cons_instr (nm : String) (cb : Int) (rest : List Atom) :
    blockSize (Atom.instructionMeta nm cb :: rest) = 1 + blockSize rest := by
  rw [blockSize.eq_def]

@[simp] theorem blockSize_cons_input (idx : Int) (rest : List Atom) :
    blockSize (Atom.input idx :: rest) = 1 + blockSize rest := by
  rw [blockSize.eq_def]

theorem codePointScan_oor_aux (n : Nat) :
    ∀ (l : List Atom), sizeOf l ≤ n → ∀ (i : Int), (blockSize l : Int) < i →
      codePointScan l i = none := by
  induction n with
  | zero =>
    intro l hl i h
    cases l with
    | nil => rw [codePointScan.eq_def]
    | cons el rest =>
      exfalso
      have hc : sizeOf (el :: rest) = 1 + sizeOf el + sizeOf rest := by simp
      omega
  | succ n ih =>
    intro l hl i h
    cases l with
    | nil => rw [codePointScan.eq_def]
    | cons el rest =>
      have hpos : 1 ≤ blockSize (el :: rest) := by cases el <;> simp <;> omega
      have hne : ¬ (i - 1 = 0) := by omega
      cases el with
      | block els =>
        have hszc : sizeOf (Atom.block els :: rest) = 1 + (1 + sizeOf els) + sizeOf rest := by
          simp
        rw [blockSize_cons_block] at h
        push_cast at h
        have hin : (blockSize els : Int) < i - 1 := by omega
        have h1 : code_at_point els (i - 1) = none := by
          rw [code_at_point.eq_def, if_neg (by omega)]
          exact ih els (by omega) (i - 1) hin
        rw [codePointScan.eq_def]
        dsimp only
        rw [if_neg hne, h1]
        exact ih rest (by omega) (i - 1 - (blockSize els : Int)) (by omega)
      | closer =>
        have hszc : sizeOf (Atom.closer :: rest) = 1 + sizeOf Atom.closer + sizeOf rest := by
          simp
        rw [blockSize_cons_closer] at h
        push_cast at h
        rw [codePointScan.eq_def]
        dsimp only
        rw [if_neg hne]
        exact ih rest (by omega) (i - 1) (by omega)
      | literal v pt =>
        have hszc : sizeOf (Atom.literal v pt :: rest)
            = 1 + sizeOf (Atom.literal v pt) + sizeOf rest := by simp
        rw [blockSize_cons_literal] at h
        push_cast at h
        rw [codePointScan.eq_def]
        dsimp only
        rw [if_neg hne]
        exact ih rest (by omega) (i - 1) (by omega)
      | instructionMeta nm cb =>
        have hszc : sizeOf (Atom.instructionMeta nm cb :: rest)
            = 1 + sizeOf (Atom.instructionMeta nm cb) + sizeOf rest := by simp
        rw [blockSize_cons_instr] at h
        push_cast at h
        rw [codePointScan.eq_def]
        dsimp only
        rw [if_neg hne]
        exact ih rest (by omega) (i - 1) (by omega)
      | input idx =>
        have hszc : sizeOf (Atom.input idx :: rest)
            = 1 + sizeOf (Atom.input idx) + sizeOf rest := by simp
        rw [blockSize_cons_input] at h
        push_cast at h
        rw [codePointScan.eq_def]
        dsimp only
        rw [if_neg hne]
        exact ih rest (by omega) (i - 1) (by omega)

theorem codePointScan_oor (l : List Atom) (i : Int) (h : (blockSize l : Int) < i) :
    codePointScan l i = none :=
  codePointScan_oor_aux (sizeOf l) l (le_refl _) i h

/-- Claim C3 (amended): `code_at_point(0)` returns the receiver, and
every index strictly greater than `size()` — in particular
`size() + 1` — is out of range (returns nothing).  The unamended
claim placed the out-of-range boundary at `size()` itself, which the
counterexample below refutes. -/
theorem code_at_point_zero_oor (els : List Atom) (ndx : Int)
    (h : (blockSize els : Int) < ndx) :
    code_at_point els 0 = some (Atom.block els) ∧ code_at_point els ndx = none := by
  constructor
  · rw [code_at_point.eq_def]
    simp
  · rw [code_at_point.eq_def, if_neg (by omega)]
    exact codePointScan_oor els ndx h

theorem code_at_point_zero_oor_witness :
    code_at_point exBlock 0 = some (Atom.block exBlock)
      ∧ code_at_point exBlock 2 = none :=
  code_at_point_zero_oor exBlock 2 (by simp [exBlock])

/-- Claim C3 counterexample: for `T = [Literal(5)]` we have `size(T) = 1`
and `code_at_point(size(T))` returns `Literal(5)` — it is not out of
range. -/
theorem code_at_point_size_cex :
    code_at_point exBlock ((blockSize exBlock : Int))
        = some (Atom.literal (PyVal.int 5) ("int"))
      ∧ (some (Atom.literal (PyVal.int 5) ("int")) : Option Atom) ≠ none := by
  constructor
  · have hb : ((blockSize exBlock : Nat) : Int) = 1 := by norm_num [blockSize, exBlock]
    rw [hb]
    simp [code_at_point, codePointScan.eq_def, exBlock]
  · simp

/-- Claim C4 (amended): the block holding exactly a Literal 5 and an
InstructionReference named add has size 2 and depth 1.  (The
iterator-based `depth` of the source returns 1, not 0, for a non-empty
block of leaves.) -/
theorem size_depth_concrete : blockSize exTree = 2 ∧ depth exTree = 1 := by
  constructor
  · simp [exTree]
  · simp [depth, depthPasses, flattenOnce, exTree]

/-- Claim C4 counterexample: the `depth()` of that block is 1, hence not 0. -/
theorem size_depth_cex : ¬ (blockSize exTree = 2 ∧ depth exTree = 0) := by
  intro hc
  have h1 : depth exTree = 1 := by
    simp [depth, depthPasses, flattenOnce, exTree]
  have h0 := hc.2
  omega

theorem apply_op_valid_ok (population : List Individual) (p : EvoParams) (src : RandSrc)
    (fuel : Nat) (child : Individual) (c : RCtr) (op : String) (hop : op ∈ validOps)
    (e : PushError) : apply_op population p src fuel child c op ≠ some (Except.error e) := by
  intro hcon
  simp only [validOps, List.mem_cons, List.mem_singleton, List.not_mem_nil, or_false] at hop
  rcases hop with rfl | rfl | rfl
  · rw [apply_op, if_pos rfl] at hcon
    split at hcon
    split at hcon
    · exact Option.noConfusion hcon
    · simp at hcon
  · rw [apply_op, if_neg (by decide), if_pos rfl] at hcon
    simp at hcon
  · rw [apply_op, if_neg (by decide), if_neg (by decide), if_pos rfl] at hcon
    simp at hcon

theorem apply_op_invalid (population : List Individual) (p : EvoParams) (src : RandSrc)
    (fuel : Nat) (child : Individual) (c : RCtr) (op : String) (hop : op ∉ validOps) :
    apply_op population p src fuel child c op
      = some (Except.error (PushError.unknownGeneticOperator op)) := by
  simp only [validOps, List.mem_cons, List.mem_singleton, List.not_mem_nil, or_false,
    not_or] at hop
  obtain ⟨h1, h2, h3⟩ := hop
  rw [apply_op, if_neg h1, if_neg h2, if_neg h3]

theorem produce_child_ops_error_iff (population : List Individual) (p : EvoParams)
    (src : RandSrc) (fuel : Nat) :
    ∀ (ops : List String) (child : Individual) (c : RCtr)
      (res : Except PushError (Individual × RCtr)),
      produce_child_ops population p src fuel ops child c = some res →
      ((∃ op, res = Except.error (PushError.unknownGeneticOperator op)
          ∧ op ∈ ops ∧ op ∉ validOps)
        ↔ ∃ op ∈ ops, op ∉ validOps) := by
  intro ops
  induction ops with
  | nil =>
    intro child c res _
    constructor
    · rintro ⟨op, -, hmem, -⟩
      simp at hmem
    · rintro ⟨op, hmem, -⟩
      simp at hmem
  | cons op rest ih =>
    intro child c res h
    constructor
    · rintro ⟨o, hres, hmem, hinv⟩
      exact ⟨o, hmem, hinv⟩
    · rintro ⟨o, hmem, hinv⟩
      by_cases hv : op ∈ validOps
      · rw [produce_child_ops] at h
        cases ha : apply_op population p src fuel child c op with
        | none =>
          rw [ha] at h
          exact Option.noConfusion h
        | some r =>
          cases r with
          | error e => exact absurd ha (apply_op_valid_ok population p src fuel child c op hv e)
          | ok pair =>
            obtain ⟨child2, c2⟩ := pair
            rw [ha] at h
            have ho : o ∈ rest := by
              rcases List.mem_cons.mp hmem with rfl | hr
              · exact absurd hv hinv
              · exact hr
            obtain ⟨o2, hr2, hm2, hi2⟩ := (ih child2 c2 res h).mpr ⟨o, ho, hinv⟩
            exact ⟨o2, hr2, List.mem_cons_of_mem _ hm2, hi2⟩
      · rw [produce_child_ops,
          apply_op_invalid population p src fuel child c op hv] at h
        simp only [Option.some.injEq] at h
        exact ⟨op, h.symm, List.mem_cons_self op rest, hv⟩

/-- Claim C8: `produce_child` raises the named error
`UnknownGeneticOperator`, carrying an offending operator string, if
and only if the composite operator specification, split on the
space-ampersand-space delimiter, contains a name other than
alternation, uniform_mutation or
uniform_close_mutation; the error is the overall result (it
propagates, nothing is retried). -/
theorem produce_child_unknown_iff (population : List Individual) (gen_ops : String)
    (p : EvoParams) (src : RandSrc) (c : RCtr) (fuel : Nat)
    (res : Except PushError (Individual × RCtr))
    (h : produce_child population gen_ops p src c fuel = some res) :
    (∃ op, res = Except.error (PushError.unknownGeneticOperator op)
        ∧ op ∈ pySplit gen_ops (" & ") ∧ op ∉ validOps)
      ↔ ∃ op ∈ pySplit gen_ops (" & "), op ∉ validOps := by
  unfold produce_child at h
  exact produce_child_ops_error_iff population p src fuel _ _ _ res h

theorem produce_child_unknown_witness :
    ∃ op ∈ (pySplit ("alternation & bogus") (" & ")), op ∉ validOps :=
  (produce_child_unknown_iff [] ("alternation & bogus") pW constSrc c0 1
      (Except.error (PushError.unknownGeneticOperator ("bogus"))) rfl).mp
    ⟨"bogus", rfl, by decide, by decide⟩

theorem produce_n_children_length (population : List Individual) (gen_ops : String)
    (p : EvoParams) (src : RandSrc) (fuel : Nat) :
    ∀ (n : Nat) (c : RCtr) (l : List Individual) (c2 : RCtr),
      produce_n_children n population gen_ops p src c fuel = some (Except.ok (l, c2)) →
      l.length = n := by
  intro n
  induction n with
  | zero =>
    intro c l c2 h
    simp only [produce_n_children, Option.some.injEq, Except.ok.injEq, Prod.mk.injEq] at h
    obtain ⟨rfl, rfl⟩ := h
    rfl
  | succ k ih =>
    intro c l c2 h
    rw [produce_n_children] at h
    cases hc : produce_child population gen_ops p src c fuel with
    | none =>
      rw [hc] at h
      exact Option.noConfusion h
    | some r =>
      cases r with
      | error e =>
        simp only [hc] at h
        simp at h
      | ok pair =>
        obtain ⟨child, c3⟩ := pair
        simp only [hc] at h
        cases hrec : produce_n_children k population gen_ops p src c3 fuel with
        | none =>
          rw [hrec] at h
          exact Option.noConfusion h
        | some r2 =>
          cases r2 with
          | error e =>
            simp only [hrec] at h
            simp at h
          | ok pair2 =>
            obtain ⟨rest, c4⟩ := pair2
            simp only [hrec, Option.some.injEq, Except.ok.injEq, Prod.mk.injEq] at h
            obtain ⟨rfl, rfl⟩ := h
            simp [ih c3 rest c4 hrec]

theorem genetics_seq_length (population : List Individual) (p : EvoParams) (src : RandSrc)
    (fuel : Nat) :
    ∀ (quotas : List (String × Int)) (c : RCtr) (l : List Individual) (c2 : RCtr),
      genetics_seq population p src fuel quotas c = some (Except.ok (l, c2)) →
      l.length = (quotas.map (fun kv => kv.2.toNat)).sum := by
  intro quotas
  induction quotas with
  | nil =>
    intro c l c2 h
    simp only [genetics_seq, Option.some.injEq, Except.ok.injEq, Prod.mk.injEq] at h
    obtain ⟨rfl, rfl⟩ := h
    rfl
  | cons kv rest ih =>
    obtain ⟨op, q⟩ := kv
    intro c l c2 h
    rw [genetics_seq] at h
    cases hc : produce_n_children q.toNat population op p src c fuel with
    | none =>
      rw [hc] at h
      exact Option.noConfusion h
    | some r =>
      cases r with
      | error e =>
        simp only [hc] at h
        simp at h
      | ok pair =>
        obtain ⟨chunk, c3⟩ := pair
        simp only [hc] at h
        cases hrec : genetics_seq population p src fuel rest c3 with
        | none =>
          rw [hrec] at h
          exact Option.noConfusion h
        | some r2 =>
          cases r2 with
          | error e =>
            simp only [hrec] at h
            simp at h
          | ok pair2 =>
            obtain ⟨l2, c4⟩ := pair2
            simp only [hrec, Option.some.injEq, Except.ok.injEq, Prod.mk.injEq] at h
            obtain ⟨rfl, rfl⟩ := h
            simp [produce_n_children_length population op p src fuel q.toNat c chunk c3 hc,
              ih c3 l2 c4 hrec]

theorem pyRound_nonneg (q : Rat) (hq : 0 ≤ q) : 0 ≤ pyRound q := by
  have hf : (0 : Int) ≤ Int.floor q := Int.floor_nonneg.mpr hq
  unfold pyRound
  dsimp only
  split
  · exact hf
  · split
    · omega
    · split <;> omega

theorem sum_toNat_eq (l : List (String × Int)) (h : ∀ kv ∈ l, 0 ≤ kv.2) :
    (((l.map (fun kv => kv.2.toNat)).sum : Nat) : Int) = (l.map (fun kv => kv.2)).sum := by
  induction l with
  | nil => simp
  | cons kv rest ih =>
    simp only [List.map_cons, List.sum_cons]
    rw [Nat.cast_add, Int.toNat_of_nonneg (h kv (List.mem_cons_self kv rest)),
      ih (fun x hx => h x (List.mem_cons_of_mem kv hx))]

/-- Claim C2: in sequential mode, whenever `genetics` terminates
without error it produces, for each operator key, exactly
`int(round(probability * population_size))` offspring, so the total
offspring count is the sum of the per-key roundings. -/
theorem genetics_sequential_quota (population : List Individual) (p : EvoParams)
    (src : RandSrc) (c : RCtr) (fuel : Nat) (l : List Individual)
    (hmode : (p.parallel_genetics && workersOver1 p.max_workers) = false)
    (hprob : ∀ kv ∈ p.genetic_operator_probabilities, 0 ≤ kv.2)
    (h : genetics population p src c fuel = some (Except.ok l)) :
    (l.length : Int) = ((num_offspring_each_gen_op p).map (fun kv => kv.2)).sum := by
  unfold genetics at h
  rw [if_neg (by simp [hmode])] at h
  cases hs : genetics_seq population p src fuel (num_offspring_each_gen_op p) c with
  | none =>
    rw [hs] at h
    exact Option.noConfusion h
  | some r =>
    cases r with
    | error e =>
      simp only [hs] at h
      simp at h
    | ok pair =>
      obtain ⟨l2, c2⟩ := pair
      simp only [hs, Option.some.injEq, Except.ok.injEq] at h
      subst h
      have hlen := genetics_seq_length population p src fuel (num_offspring_each_gen_op p)
        c l2 c2 hs
      have hq : ∀ kv ∈ num_offspring_each_gen_op p, 0 ≤ kv.2 := by
        intro kv hkv
        simp only [num_offspring_each_gen_op, List.mem_map] at hkv
        obtain ⟨kv0, hkv0, rfl⟩ := hkv
        exact pyRound_nonneg _ (mul_nonneg (hprob kv0 hkv0) (Nat.cast_nonneg _))
      rw [hlen]
      exact sum_toNat_eq _ hq

theorem num_offspring_p100 :
    num_offspring_each_gen_op p100
      = [("alternation", 70), ("uniform_mutation", 30)] := by
  simp only [num_offspring_each_gen_op, p100, List.map_cons, List.map_nil]
  norm_num [pyRound]

theorem genetics_sequential_quota_witness :
    ((List.replicate 100 (Individual.mk ([] : List PlushGene))).length : Int)
        = ((num_offspring_each_gen_op p100).map (fun kv => kv.2)).sum
      ∧ ((num_offspring_each_gen_op p100).map (fun kv => kv.2)).sum = 70 + 30 := by
  constructor
  · refine genetics_sequential_quota [] p100 constSrc c0 1
      (List.replicate 100 (Individual.mk [])) (by simp [p100, workersOver1]) ?_ ?_
    · intro kv hkv
      simp only [p100, List.mem_cons, List.not_mem_nil, or_false] at hkv
      rcases hkv with rfl | rfl <;> norm_num
    · unfold genetics
      rw [if_neg (by simp [p100, workersOver1])]
      rw [num_offspring_p100]
      rfl
  · rw [num_offspring_p100]
    decide

theorem specCarve_zero (f : Nat) (share : Int) : specCarve f 0 share = [] := by
  cases f <;> simp [specCarve]

theorem carve_jobs_eq_spec :
    ∀ (fuel : Nat) (q share : Int), 1 ≤ share → 0 ≤ q → q.toNat ≤ fuel →
      carve_jobs fuel q share = some (specCarve fuel q share)
        ∧ (specCarve fuel q share).sum = q := by
  intro fuel
  induction fuel with
  | zero =>
    intro q share hs hq hf
    have hq0 : q = 0 := by omega
    subst hq0
    constructor
    · rw [carve_jobs.eq_def]
      simp [specCarve]
    · simp [specCarve]
  | succ f ih =>
    intro q share hs hq hf
    by_cases hp : 0 < q
    · by_cases hlt : q < share
      · have hz : carve_jobs f (q - q) share = some [] := by
          rw [carve_jobs.eq_def]
          simp
        constructor
        · rw [carve_jobs.eq_def]
          show (if 0 < q then
              (if q < share then (carve_jobs f (q - q) share).map (fun l => q :: l)
                else (carve_jobs f (q - share) share).map (fun l => share :: l))
              else some []) = some (specCarve (f + 1) q share)
          rw [if_pos hp, if_pos hlt, hz]
          rw [specCarve, if_pos hp, min_eq_left (le_of_lt hlt)]
          simp [specCarve_zero]
        · rw [specCarve, if_pos hp, min_eq_left (le_of_lt hlt)]
          simp [specCarve_zero]
      · obtain ⟨hc, hsum⟩ := ih (q - share) share hs (by omega) (by omega)
        constructor
        · rw [carve_jobs.eq_def]
          show (if 0 < q then
              (if q < share then (carve_jobs f (q - q) share).map (fun l => q :: l)
                else (carve_jobs f (q - share) share).map (fun l => share :: l))
              else some []) = some (specCarve (f + 1) q share)
          rw [if_pos hp, if_neg hlt, hc]
          rw [specCarve, if_pos hp, min_eq_right (not_lt.mp hlt)]
          rfl
        · rw [specCarve, if_pos hp, min_eq_right (not_lt.mp hlt)]
          simp only [List.sum_cons]
          omega
    · have hq0 : q = 0 := by omega
      subst hq0
      constructor
      · rw [carve_jobs.eq_def]
        simp [specCarve]
      · simp [specCarve]

theorem partition_jobs_some (share : Int) (fuel : Nat) :
    ∀ (quotas : List (String × Int)), 1 ≤ share → (∀ kv ∈ quotas, 0 ≤ kv.2) →
      (∀ kv ∈ quotas, kv.2.toNat ≤ fuel) →
      ∃ jobs, partition_jobs quotas share fuel = some jobs := by
  intro quotas
  induction quotas with
  | nil =>
    intro _ _ _
    exact ⟨[], rfl⟩
  | cons kv rest ih =>
    intro hs hq hf
    obtain ⟨op, q⟩ := kv
    have hc := (carve_jobs_eq_spec fuel q share hs (hq _ (List.mem_cons_self _ _))
      (hf _ (List.mem_cons_self _ _))).1
    obtain ⟨jobs, hjobs⟩ := ih hs (fun x hx => hq x (List.mem_cons_of_mem _ hx))
      (fun x hx => hf x (List.mem_cons_of_mem _ hx))
    refine ⟨(specCarve fuel q share).map (fun n => (n, op)) ++ jobs, ?_⟩
    rw [partition_jobs, hc, hjobs]

/-- Claim C9: in the parallel branch, under the precondition
per_job_share ≥ 1 (and non-negative quotas), the job-partition loop of
`genetics` terminates having exhausted every quota; each operator
per-key sequence of job sizes is exactly the sequence of
min(remaining quota, per_job_share) values, and it sums to the quota
of that operator. -/
theorem genetics_partition_exact (quotas : List (String × Int)) (share : Int) (fuel : Nat)
    (hs : 1 ≤ share) (hq : ∀ kv ∈ quotas, 0 ≤ kv.2)
    (hf : ∀ kv ∈ quotas, kv.2.toNat ≤ fuel) :
    (∃ jobs, partition_jobs quotas share fuel = some jobs)
      ∧ ∀ kv ∈ quotas, carve_jobs fuel kv.2 share = some (specCarve fuel kv.2 share)
          ∧ (specCarve fuel kv.2 share).sum = kv.2 :=
  ⟨partition_jobs_some share fuel quotas hs hq hf,
   fun kv hkv => carve_jobs_eq_spec fuel kv.2 share hs (hq kv hkv) (hf kv hkv)⟩

theorem genetics_partition_exact_witness :
    (∃ jobs, partition_jobs ([("alternation", 70), ("uniform_mutation", 30)]) 33 70
        = some jobs)
      ∧ ∀ kv ∈ ([(("alternation" : String), (70 : Int)), ("uniform_mutation", 30)]),
          carve_jobs 70 kv.2 33 = some (specCarve 70 kv.2 33)
            ∧ (specCarve 70 kv.2 33).sum = kv.2 :=
  genetics_partition_exact [("alternation", 70), ("uniform_mutation", 30)] 33 70
    (by decide) (by decide) (by decide)

end PyshGP
